import Mathlib

/-!
# Verification of the boardoverse backend game engine

A shallow embedding of the Ludo-style game engine of this repository:
`gameLogic.js` (board constants, move validation, token movement, win
detection, turn advancement, the computer player) and
`services/gameService.js` (the per-game service operations `rollDice`,
`playRoll`, `skipTurn`, `joinGame` and the disconnect-expiry player
removal).

Modelling conventions:
* JavaScript numbers are embedded as `Nat` (steps, dice faces, indices)
  or `Int` (board positions, which use the sentinels `-1` for the home
  base and `99` for completion).  The JS remainder with the explicit
  `if (x < 0) x += n` correction used by the source is `Int.emod`.
* The random dice draw of `rollDice` / `makeComputerMove` is passed in
  as an explicit argument; everything downstream of the draw is
  deterministic and embedded as-is.
* Thrown `Error`s are embedded as a `GameError` value returned next to
  the (possibly mutated) post-state: a service call returns
  `Option GameError × Game` where `none` means success.  The source
  mutates the shared game object in place, so a failure can still leave
  a changed state; the embedding returns exactly the state the mutation
  left behind.
* Timestamps (`createdAt`, `lastActivity`), persistence
  (`saveGameState`) and the socket layer are outside the engine and not
  modelled.  The deferred AI continuation and the disconnect timer are
  scheduled callbacks; only their synchronous bodies are modelled
  (`makeComputerMoveStep`, `disconnectExpiry`).
* Token fields `homeBasePosition` and `index` are render-only data never
  read by the engine and are omitted.
-/

/-- `TRACK_LENGTH` from `gameLogic.js`. -/
def TRACK_LENGTH : Nat := 52

/-- `HOME_COLUMN_LENGTH` from `gameLogic.js`. -/
def HOME_COLUMN_LENGTH : Nat := 6

/-- `PLAYER_START_OFFSETS` from `gameLogic.js`:
`RED = (0+9) % 52 = 9`, `GREEN = (13+9) % 52 = 22`,
`YELLOW = (26+9) % 52 = 35`, `BLUE = (39+9) % 52 = 48`.
A lookup with an unknown color is `undefined` in JS and never happens in
engine states; it is embedded as `0`. -/
def PLAYER_START_OFFSETS (color : String) : Nat :=
  if color = "RED" then 9
  else if color = "GREEN" then 22
  else if color = "YELLOW" then 35
  else if color = "BLUE" then 48
  else 0

/-- `SAFE_SQUARE_INDICES` from `gameLogic.js`: the four start offsets. -/
def SAFE_SQUARE_INDICES : List Int := [9, 22, 35, 48]

/-- `String.prototype.toLowerCase` restricted to the four color names the
engine uses (`player.colors` stores lowercase, `token.color` uppercase). -/
def colorToLower (color : String) : String :=
  if color = "RED" then "red"
  else if color = "GREEN" then "green"
  else if color = "YELLOW" then "yellow"
  else if color = "BLUE" then "blue"
  else color

/-- A token, as built by `initializeTokens` in `gameLogic.js`.
`position` is `-1` in base, a track offset in `[0, 52)` on the common
track, `100 + playerIndex * 10 + k` on the home path and `99` once
completed. -/
structure Token where
  id : String
  color : String
  playerIndex : Nat
  position : Int
  steps : Nat
  completed : Bool
deriving DecidableEq

/-- A player entry of `game.players` in `gameService.js`.  `id` is the
socket id (`'AI'` for the computer seat), `playerId` the stable player
identity. -/
structure Player where
  playerId : String
  id : String
  playerIndex : Nat
  colors : List String
deriving DecidableEq

/-- The mutable game object created by `GameService.createGame`. -/
structure Game where
  players : List Player
  currentPlayer : Nat
  originalRolls : List Nat
  currentRolls : List Nat
  rolledValue : List Nat
  diceValue : Nat
  gameStarted : Bool
  tokens : List Token
  winners : List Nat
  gameOver : Bool
  vsComputer : Bool
deriving DecidableEq

/-- The typed failures thrown by `gameService.js`, one constructor per
distinct `throw new Error(...)` message:
`GameNotFound` = 'Game not found' / 'Game does not exist',
`PlayerNotFound` = 'Player not found in game',
`TokenNotFound` = 'Token not found',
`InvalidFace` = 'Invalid roll value',
`IllegalMove` = 'Invalid move',
`OutOfTurn` = 'Not your turn',
`GameFull` = 'Game is already full',
`PlayerIndexNotFound` = 'Player with index not found' (the `skipTurn`
lookup failure). -/
inductive GameError where
  | GameNotFound
  | PlayerNotFound
  | TokenNotFound
  | InvalidFace
  | IllegalMove
  | OutOfTurn
  | GameFull
  | PlayerIndexNotFound
deriving DecidableEq

/-- `Array.prototype.findIndex`: the index of the first element
satisfying `p`, or `-1` when none does. -/
def jsFindIndex (p : α → Bool) : List α → Int
  | [] => -1
  | a :: l =>
    if p a then 0
    else
      let r := jsFindIndex p l
      if r = -1 then -1 else r + 1

/-- `getProjectedGlobalPosition(token, diceValue)` from `gameLogic.js`:
the global position a token would occupy after moving `diceValue`
(with `diceValue = 0` giving its current global position). -/
def getProjectedGlobalPosition (token : Token) (diceValue : Nat) : Int :=
  if token.position = -1 then
    if diceValue = 6 then (PLAYER_START_OFFSETS token.color : Int) else -1
  else
    let projectedSteps := token.steps + diceValue
    if projectedSteps ≥ TRACK_LENGTH + HOME_COLUMN_LENGTH then 99
    else if projectedSteps ≥ TRACK_LENGTH then
      100 + (token.playerIndex : Int) * 10 + ((projectedSteps : Int) - (TRACK_LENGTH : Int)) - 1
    else
      ((PLAYER_START_OFFSETS token.color : Int) + (projectedSteps : Int) - 1).emod (TRACK_LENGTH : Int)

/-- `isValidMove(game, token)` from `gameLogic.js`, reading the face from
`game.diceValue`.  A base token (`position = -1`) returns
`diceValue === 6` immediately; otherwise the overshoot checks run only
while `token.steps < 57`, then the collision loop over `game.tokens`. -/
def isValidMove (game : Game) (token : Token) : Bool :=
  let diceValue := game.diceValue
  if token.position = -1 then diceValue == 6
  else
    let newPositionSteps := token.steps + diceValue
    let targetCommonTrackPosition :=
      ((PLAYER_START_OFFSETS token.color : Int) + (newPositionSteps : Int) - 1).emod
        (TRACK_LENGTH : Int)
    let overshoot : Bool :=
      if token.steps < TRACK_LENGTH + HOME_COLUMN_LENGTH - 1 then
        if newPositionSteps > TRACK_LENGTH + HOME_COLUMN_LENGTH - 1 then true
        else if token.steps ≤ TRACK_LENGTH ∧ newPositionSteps > TRACK_LENGTH then
          decide (newPositionSteps - TRACK_LENGTH > HOME_COLUMN_LENGTH)
        else false
      else false
    if overshoot then false
    else
      let isTargetSafe := SAFE_SQUARE_INDICES.contains targetCommonTrackPosition
      let isMovingOnHomePath := newPositionSteps > TRACK_LENGTH
      let targetGlobalPosition := getProjectedGlobalPosition token diceValue
      game.tokens.all (fun otherToken =>
        if otherToken.id = token.id ∨ otherToken.completed then true
        else
          let otherTokenGlobalPosition := getProjectedGlobalPosition otherToken 0
          if targetGlobalPosition = otherTokenGlobalPosition then
            if otherToken.color = token.color then false
            else if isTargetSafe ∨ isMovingOnHomePath then false
            else true
          else true)

/-- The body of the `game.players.forEach(...)` loop of
`checkWinCondition` in `gameLogic.js`: append `player.playerIndex` to
`winners` when all of that index's tokens are completed and it is not
already a winner. -/
def winConditionStep (acc : Game) (player : Player) : Game :=
  let playerTokens := acc.tokens.filter (fun t => t.playerIndex = player.playerIndex)
  if playerTokens.all (fun t => t.completed) ∧ ¬ acc.winners.contains player.playerIndex then
    { acc with winners := acc.winners ++ [player.playerIndex] }
  else acc

/-- `checkWinCondition(game)` from `gameLogic.js`. -/
def checkWinCondition (game : Game) : Game :=
  let g := game.players.foldl winConditionStep game
  if g.winners.length = g.players.length then { g with gameOver := true } else g

/-- The stored board position `moveToken` computes for a non-base token
moving to `targetSteps`: the three branches (entering the home path,
already in the home path, still on the common track) of `gameLogic.js`.
Note the track branch runs *backwards* (`start - (steps - 1)`), unlike
`getProjectedGlobalPosition`. -/
def moveTokenNewPosition (token : Token) (targetSteps : Nat) : Int :=
  if token.steps < TRACK_LENGTH ∧ targetSteps ≥ TRACK_LENGTH then
    100 + (token.playerIndex : Int) * 10 + ((targetSteps : Int) - (TRACK_LENGTH : Int)) - 1
  else if token.steps ≥ TRACK_LENGTH then
    100 + (token.playerIndex : Int) * 10 + ((targetSteps : Int) - (TRACK_LENGTH : Int))
  else
    ((PLAYER_START_OFFSETS token.color : Int) - ((targetSteps : Int) - 1) +
      (TRACK_LENGTH : Int)).emod (TRACK_LENGTH : Int)

/-- The capture clause of `moveToken` in `gameLogic.js`: when the moved
token (already advanced in `g1`) stays within `steps <= 52`, the *first*
token found on the reached stored position with a different color and
off a safe square is sent back to base. -/
def moveTokenCapture (g1 : Game) (token : Token) (newPosition : Int) (newSteps : Nat) : Game :=
  if newSteps ≤ TRACK_LENGTH then
    match g1.tokens.find? (fun t =>
        t.position = newPosition ∧ t.color ≠ token.color ∧ t.position ≠ -1 ∧
        ¬ SAFE_SQUARE_INDICES.contains newPosition) with
    | some targetToken =>
      { g1 with tokens := g1.tokens.map (fun t =>
          if t.id = targetToken.id then { t with position := -1, steps := 0 } else t) }
    | none => g1
  else g1

/-- The completion clause of `moveToken` in `gameLogic.js`: on
`steps >= 58` mark the moved token completed at position 99 and run
`checkWinCondition`. -/
def moveTokenComplete (g2 : Game) (tokenId : String) (newSteps : Nat) : Game :=
  if newSteps ≥ TRACK_LENGTH + HOME_COLUMN_LENGTH then
    checkWinCondition { g2 with tokens := g2.tokens.map (fun t =>
      if t.id = tokenId then { t with completed := true, position := 99 } else t) }
  else g2

/-- `moveToken(game, token)` from `gameLogic.js`, with the token
identified by its id (the source passes the mutable token object).
Re-checks `isValidMove` and is a no-op on an invalid move; a base token
exits to its start offset with `steps = 1` and returns immediately;
otherwise the token advances to `moveTokenNewPosition`, the capture
clause `moveTokenCapture` runs, then the completion clause
`moveTokenComplete`. -/
def moveToken (game : Game) (tokenId : String) : Game :=
  match game.tokens.find? (fun t => t.id = tokenId) with
  | none => game
  | some token =>
    if ¬ isValidMove game token then game
    else if token.position = -1 then
      { game with tokens := game.tokens.map (fun t =>
          if t.id = tokenId then
            { t with position := (PLAYER_START_OFFSETS t.color : Int), steps := 1 }
          else t) }
    else
      let targetSteps := token.steps + game.diceValue
      let newPosition := moveTokenNewPosition token targetSteps
      let g1 := { game with tokens := game.tokens.map (fun t =>
          if t.id = tokenId then { t with position := newPosition, steps := targetSteps } else t) }
      moveTokenComplete (moveTokenCapture g1 token newPosition targetSteps) tokenId targetSteps

/-- `nextTurn(game)` from `gameLogic.js`: clear remaining and original
rolls, advance `currentPlayer` cyclically.  (The deferred AI move it may
schedule is a timer callback and not part of the synchronous step.) -/
def nextTurn (game : Game) : Game :=
  { game with
    currentRolls := []
    originalRolls := []
    currentPlayer := (game.currentPlayer + 1) % game.players.length }

/-- `checkForValidMoves(game, playerIndex)` from `gameLogic.js`.  It
reads `game.players[playerIndex].colors` and checks each allowed-color
token with `isValidMove` (which uses the temporarily-set
`game.diceValue`).  An out-of-range index is a JS crash and is embedded
as `false`. -/
def checkForValidMoves (game : Game) (playerIndex : Nat) : Bool :=
  match game.players.get? playerIndex with
  | none => false
  | some pl =>
    game.tokens.any (fun token =>
      pl.colors.contains (colorToLower token.color) && isValidMove game token)

/-- `GameService.rollDice(gameId, playerId)` with the two random draws
passed in as `rolls`.  On `OutOfTurn` the source first clears
`game.rolledValue` and then throws. -/
def rollDice (game : Game) (playerId : String) (rolls : List Nat) :
    Option GameError × Game :=
  match game.players.find? (fun p => p.playerId = playerId) with
  | none => (some GameError.PlayerNotFound, game)
  | some player =>
    if player.playerIndex ≠ game.currentPlayer then
      (some GameError.OutOfTurn, { game with rolledValue := [] })
    else
      let g1 := { game with originalRolls := rolls, currentRolls := rolls, rolledValue := rolls }
      let hasValidMove := g1.currentRolls.any (fun val =>
        checkForValidMoves { g1 with diceValue := val } player.playerIndex)
      let g2 := { g1 with diceValue := 0 }
      if ¬ hasValidMove then (none, nextTurn g2) else (none, g2)

/-- `GameService.playRoll(gameId, socketId, tokenId, rolledValue)`.
Note the source validates the token, the caller's membership and the
face, but never compares the caller to `game.currentPlayer` nor to the
token's owner; `game.diceValue` is set before the `isValidMove` check
and is left set on the `IllegalMove` path. -/
def playRoll (game : Game) (socketId tokenId : String) (rolledValue : Nat) :
    Option GameError × Game :=
  match game.tokens.find? (fun t => t.id = tokenId) with
  | none => (some GameError.TokenNotFound, game)
  | some token =>
    match game.players.find? (fun p => p.id = socketId) with
    | none => (some GameError.PlayerNotFound, game)
    | some _player =>
      let idx := jsFindIndex (fun v => v == rolledValue) game.currentRolls
      if idx < 0 then (some GameError.InvalidFace, game)
      else
        let g1 := { game with diceValue := rolledValue }
        if ¬ isValidMove g1 token then (some GameError.IllegalMove, g1)
        else
          let g2 := moveToken g1 tokenId
          let g3 := { g2 with currentRolls := g2.currentRolls.eraseIdx idx.toNat }
          let g4 :=
            if g3.currentRolls.length = 0 ∨ ¬ checkForValidMoves g3 g3.currentPlayer then
              nextTurn g3
            else g3
          (none, g4)

/-- `GameService.skipTurn(gameId, socketId)`.  The source guards the
`findIndex` result with the JS-truthiness test `if (!pIdx) throw`, which
fires for index `0` and lets `-1` through. -/
def skipTurn (game : Game) (socketId : String) : Option GameError × Game :=
  let pIdx : Int := jsFindIndex (fun p => p.id == socketId) game.players
  if pIdx = 0 then (some GameError.PlayerIndexNotFound, game)
  else if pIdx ≠ (game.currentPlayer : Int) then (some GameError.OutOfTurn, game)
  else (none, nextTurn game)

/-- `GameService.joinGame(socketId, gameId, playerId)`: rebind on a known
`playerId`, otherwise reject a full game, otherwise append seat 1. -/
def joinGame (game : Game) (socketId playerId : String) : Option GameError × Game :=
  match game.players.find? (fun p => p.playerId = playerId) with
  | some _ =>
    (none, { game with players := game.players.map (fun p =>
        if p.playerId = playerId then { p with id := socketId } else p) })
  | none =>
    if game.players.length ≥ 2 then (some GameError.GameFull, game)
    else
      (none, { game with
        players := game.players ++
          [{ playerId := playerId, id := socketId, playerIndex := 1,
             colors := ["green", "blue"] }]
        gameStarted := true })

/-- The body of the disconnect grace-period timer in
`GameService.handleDisconnect`: remove the player bound to the socket
from `game.players`. -/
def disconnectExpiry (game : Game) (socketId : String) : Game :=
  { game with players := game.players.filter (fun p => p.id ≠ socketId) }

/-- One candidate move of `makeComputerMove` in `gameLogic.js`:
the token, the face `r` and the roll index `i`. -/
structure AIMove where
  t : Token
  r : Nat
  i : Nat
deriving DecidableEq

/-- The `possibleMoves` enumeration of `makeComputerMove`: for each roll
(in order) and each token (in order), the pairs passing the color filter
and `isValidMove` with `game.diceValue` set to that roll. -/
def aiPossibleMoves (game : Game) : List AIMove :=
  let allowed := match game.players.get? game.currentPlayer with
    | none => []
    | some p => p.colors
  game.currentRolls.enum.foldl (fun acc ir =>
    acc ++ ((game.tokens.filter (fun t =>
        allowed.contains (colorToLower t.color) &&
          isValidMove { game with diceValue := ir.2 } t)).map
      (fun t => { t := t, r := ir.2, i := ir.1 }))) []

/-- The `bestMove` selection of `makeComputerMove`: if a 6 was rolled,
the first valid base-exit with face 6; otherwise (or when none exists)
the first valid move in enumeration order. -/
def aiSelectMove (game : Game) : Option AIMove :=
  match aiPossibleMoves game with
  | [] => none
  | m0 :: rest =>
    let best :=
      if game.originalRolls.contains 6 then
        (m0 :: rest).find? (fun m => m.r == 6 && m.t.position == -1)
      else none
    some (best.getD m0)

/-- One synchronous step of `makeComputerMove(game)` with the random
draw passed in as `rolls`: install the rolls, pick `bestMove`, apply it
and consume its roll; with no valid move, or when the turn ends, call
`nextTurn`.  The recursive continuation after playing a 6 is a timer
callback and not part of the synchronous step. -/
def makeComputerMoveStep (game : Game) (rolls : List Nat) : Game :=
  if game.gameOver then game
  else
    let g1 := { game with originalRolls := rolls, currentRolls := rolls, rolledValue := rolls }
    match aiSelectMove g1 with
    | none => nextTurn g1
    | some bestMove =>
      let g2 := { g1 with diceValue := bestMove.r }
      let g3 := moveToken g2 bestMove.t.id
      let g4 := { g3 with currentRolls := g3.currentRolls.eraseIdx bestMove.i }
      if bestMove.r = 6 ∧ g4.currentRolls.length ≠ 0 then g4
      else nextTurn g4

/-- Modelled from the spec (§4.4(a), glossary "Capture"): a `(token, face)`
move captures when applying it sends some token that was on the board
back to base. -/
def specMoveCaptures (game : Game) (token : Token) (r : Nat) : Bool :=
  let g2 := moveToken { game with diceValue := r } token.id
  game.tokens.any (fun t =>
    t.position ≠ -1 &&
      (((g2.tokens.find? (fun u => u.id = t.id)).map (fun u => u.position)).getD
        t.position == -1))

/-- Modelled from the spec (§4.4 step 4): `a` strictly outranks `b` in the
total order — captures first, then base exits, then greatest `steps`. -/
def specBetter (game : Game) (a b : AIMove) : Bool :=
  let ca := specMoveCaptures game a.t a.r
  let cb := specMoveCaptures game b.t b.r
  let ea := a.t.position == -1
  let eb := b.t.position == -1
  (ca && !cb) || (ca == cb && ((ea && !eb) || (ea == eb && a.t.steps > b.t.steps)))

/-- Modelled from the spec: the AI's applied pair is maximal in the spec's
total order among all legal pairs. -/
def aiChoiceMaximal (game : Game) : Bool :=
  match aiSelectMove game with
  | none => true
  | some m => (aiPossibleMoves game).all (fun m2 => !(specBetter game m2 m))

/-- The seat indices of a game: `game.players.map(p => p.playerIndex)`. -/
def seatIndices (g : Game) : List Nat := g.players.map (fun p => p.playerIndex)

/-- The invariant claimed for the engine: `winners` is duplicate-free and
`gameOver` holds iff `winners` contains every seat index of the game. -/
def winnersInvariant (g : Game) : Prop :=
  g.winners.Nodup ∧ (g.gameOver = true ↔ ∀ p ∈ g.players, p.playerIndex ∈ g.winners)

instance (g : Game) : Decidable (winnersInvariant g) := by
  unfold winnersInvariant; infer_instance

/-- `winnersInvariant` strengthened with the facts that make it inductive
for the turn-engine operations: `winners` only holds seat indices and the
seat indices are pairwise distinct. -/
def engineInvariant (g : Game) : Prop :=
  g.winners.Nodup ∧ g.winners ⊆ seatIndices g ∧ (seatIndices g).Nodup ∧
    (g.gameOver = true ↔ ∀ p ∈ g.players, p.playerIndex ∈ g.winners)

instance (g : Game) : Decidable (engineInvariant g) := by
  unfold engineInvariant; infer_instance

/-- A single token as `initializeTokens` creates it: in base, no steps. -/
def initToken (id color : String) (pi : Nat) : Token :=
  { id := id, color := color, playerIndex := pi, position := -1, steps := 0,
    completed := false }

/-- Seat 0 as `createGame` builds it. -/
def humanPlayer0 : Player :=
  { playerId := "P0", id := "s0", playerIndex := 0, colors := ["red", "yellow"] }

/-- Seat 1 as `joinGame` builds it. -/
def humanPlayer1 : Player :=
  { playerId := "P1", id := "s1", playerIndex := 1, colors := ["green", "blue"] }

/-- The AI seat as `createGame` builds it for `vsComputer` games. -/
def aiPlayer : Player :=
  { playerId := "AI", id := "AI", playerIndex := 1, colors := ["green", "blue"] }

/-- A started two-seat game with no rolls and no tokens placed; the
concrete states below override the fields they need. -/
def baseGame : Game :=
  { players := [humanPlayer0, humanPlayer1], currentPlayer := 0,
    originalRolls := [], currentRolls := [], rolledValue := [], diceValue := 0,
    gameStarted := true, tokens := [], winners := [], gameOver := false,
    vsComputer := false }

/-- C1 state: seat 0 to act, one 6 available, `GREEN-0` (seat 1) in base. -/
def gameC1 : Game :=
  { baseGame with
    originalRolls := [6], currentRolls := [6], rolledValue := [6],
    tokens := [initToken "RED-0" "RED" 0, initToken "GREEN-0" "GREEN" 1] }

/-- C2 state: seat 0 to act with `[3,5]` rolled and displayed. -/
def gameC2 : Game :=
  { baseGame with
    originalRolls := [3, 5], currentRolls := [3, 5], rolledValue := [3, 5],
    tokens := [initToken "RED-0" "RED" 0] }

/-- C2 state for the `IllegalMove` path: `RED-0` deep in the home stretch
so that face 6 overshoots. -/
def gameC2b : Game :=
  { baseGame with
    originalRolls := [6], currentRolls := [6], rolledValue := [6],
    tokens := [{ id := "RED-0", color := "RED", playerIndex := 0, position := 100,
                 steps := 53, completed := false }] }

/-- C3: a completed token (`steps = 58`, the finish value). -/
def tokenC3 : Token :=
  { id := "RED-0", color := "RED", playerIndex := 0, position := 99, steps := 58,
    completed := true }

/-- C3 state: seat 0 holds a rolled 1 and owns the completed `RED-0`. -/
def gameC3 : Game :=
  { baseGame with
    originalRolls := [1], currentRolls := [1], rolledValue := [1],
    tokens := [tokenC3, initToken "RED-1" "RED" 0, initToken "GREEN-0" "GREEN" 1] }

/-- C4 state: seat 0 to act (fresh two-seat game). -/
def gameC4 : Game := baseGame

/-- C4 state: seat 1 to act. -/
def gameC4b : Game := { baseGame with currentPlayer := 1 }

/-- C5: a token on the first home-stretch square (`steps = 53`). -/
def tokenC5a : Token :=
  { id := "RED-0", color := "RED", playerIndex := 0, position := 100, steps := 53,
    completed := false }

/-- C5: a token on the last-but-one home-stretch square (`steps = 57`). -/
def tokenC5b : Token :=
  { id := "RED-0", color := "RED", playerIndex := 0, position := 104, steps := 57,
    completed := false }

/-- C5: a token on the track at `steps = 50`. -/
def tokenC5c : Token :=
  { id := "RED-0", color := "RED", playerIndex := 0, position := 12, steps := 50,
    completed := false }

/-- C5 state: face 5 against `tokenC5a`, target exactly 58 (the finish). -/
def gameC5 : Game := { baseGame with diceValue := 5, tokens := [tokenC5a] }

/-- C5 state: face 6 against `tokenC5b`, target 63 (past the finish). -/
def gameC5b : Game := { baseGame with diceValue := 6, tokens := [tokenC5b] }

/-- C5 state: face 4 against `tokenC5c`, the spec's steps-50 scenario. -/
def gameC5c : Game :=
  { baseGame with
    diceValue := 4, currentRolls := [4], originalRolls := [4],
    tokens := [tokenC5c] }

/-- C6 state: all of seat 0's tokens in base. -/
def gameC6 : Game :=
  { baseGame with
    tokens := [initToken "RED-0" "RED" 0, initToken "YELLOW-0" "YELLOW" 2,
               initToken "GREEN-0" "GREEN" 1] }

/-- C7: an opponent (seat 0) token on stored track position 10. -/
def tokenC7r : Token :=
  { id := "RED-0", color := "RED", playerIndex := 0, position := 10, steps := 30,
    completed := false }

/-- C7: AI token `GREEN-0`, two steps in — enumerated first. -/
def tokenC7a : Token :=
  { id := "GREEN-0", color := "GREEN", playerIndex := 1, position := 21, steps := 2,
    completed := false }

/-- C7: AI token `GREEN-1`, ten steps in — face 3 lands on `RED-0`. -/
def tokenC7b : Token :=
  { id := "GREEN-1", color := "GREEN", playerIndex := 1, position := 13, steps := 10,
    completed := false }

/-- C7 state: the AI (seat 1) holds `[3,5]`; `(GREEN-1, 3)` captures
`RED-0`, but `(GREEN-0, 3)` is enumerated first. -/
def gameC7 : Game :=
  { baseGame with
    players := [humanPlayer0, aiPlayer], currentPlayer := 1, vsComputer := true,
    originalRolls := [3, 5], currentRolls := [3, 5], rolledValue := [3, 5],
    tokens := [tokenC7r, tokenC7a, tokenC7b] }

/-- C8 state: a finished solo game — seat 0 completed all its tokens, so
`winners = [0]` and `gameOver` is set. -/
def gameC8 : Game :=
  { baseGame with
    players := [humanPlayer0], winners := [0], gameOver := true,
    tokens := [{ id := "RED-0", color := "RED", playerIndex := 0, position := 99,
                 steps := 58, completed := true },
               { id := "RED-1", color := "RED", playerIndex := 0, position := 99,
                 steps := 58, completed := true },
               { id := "RED-2", color := "RED", playerIndex := 0, position := 99,
                 steps := 58, completed := true },
               { id := "RED-3", color := "RED", playerIndex := 0, position := 99,
                 steps := 58, completed := true },
               initToken "GREEN-0" "GREEN" 1] }

/-- C9: seat 0's `RED-0` on the track at `steps = 50`. -/
def tokenC9 : Token :=
  { id := "RED-0", color := "RED", playerIndex := 0, position := 12, steps := 50,
    completed := false }

/-- C9 state: `[5,6]` rolled; playing the 5 enters the home stretch and
the follow-up validity check (run with `diceValue` still 5) fails. -/
def gameC9 : Game :=
  { baseGame with
    originalRolls := [5, 6], currentRolls := [5, 6], rolledValue := [5, 6],
    tokens := [tokenC9, initToken "RED-1" "RED" 0, initToken "YELLOW-0" "YELLOW" 2,
               initToken "GREEN-0" "GREEN" 1] }

/-- C9 witness state: a double `[6,6]` with two seat-0 tokens in base. -/
def gameC9w : Game :=
  { baseGame with
    originalRolls := [6, 6], currentRolls := [6, 6], rolledValue := [6, 6],
    tokens := [initToken "RED-0" "RED" 0, initToken "RED-1" "RED" 0] }

/-- C10: seat 1's `GREEN-0` on the track, movable with face 3. -/
def tokenC10 : Token :=
  { id := "GREEN-0", color := "GREEN", playerIndex := 1, position := 21, steps := 2,
    completed := false }

/-- C10 state: seat 0 to act, a 3 available, only the opponent-owned
`GREEN-0` on the board. -/
def gameC10 : Game :=
  { baseGame with
    originalRolls := [3], currentRolls := [3], rolledValue := [3],
    tokens := [tokenC10] }

/-- C8 witness state: a fresh-style two-seat game (invariant holds, not
over) with a playable 6. -/
def gameC8w : Game :=
  { baseGame with
    originalRolls := [6, 6], currentRolls := [6, 6], rolledValue := [6, 6],
    tokens := [initToken "RED-0" "RED" 0, initToken "RED-1" "RED" 0,
               initToken "GREEN-0" "GREEN" 1] }

/-- A `jsFindIndex` result is never below `-1`. -/
theorem jsFindIndex_ge (p : α → Bool) : ∀ (l : List α), -1 ≤ jsFindIndex p l
  | [] => by simp [jsFindIndex]
  | a :: l => by
    unfold jsFindIndex
    split
    · omega
    · dsimp only
      split
      · omega
      · have := jsFindIndex_ge p l
        omega

/-- Erasing at the index `jsFindIndex` found for the value `f` is erasing
the first occurrence of `f`. -/
theorem jsFindIndex_eraseIdx (f : Nat) : ∀ (l : List Nat),
    0 ≤ jsFindIndex (fun v => v == f) l →
    l.eraseIdx (jsFindIndex (fun v => v == f) l).toNat = l.erase f
  | [], h => by simp [jsFindIndex] at h
  | a :: l, h => by
    by_cases ha : (a == f) = true
    · simp [jsFindIndex, ha, List.erase_cons]
    · have ha' : (a == f) = false := by simpa using ha
      have hge := jsFindIndex_ge (fun v => v == f) l
      by_cases hr : jsFindIndex (fun v => v == f) l = -1
      · exfalso
        simp [jsFindIndex, ha', hr] at h
      · have h0 : 0 ≤ jsFindIndex (fun v => v == f) l := by omega
        have hstep : jsFindIndex (fun v => v == f) (a :: l) =
            jsFindIndex (fun v => v == f) l + 1 := by
          simp [jsFindIndex, ha', hr]
        have htn : (jsFindIndex (fun v => v == f) l + 1).toNat =
            (jsFindIndex (fun v => v == f) l).toNat + 1 := by omega
        rw [hstep, htn, List.eraseIdx_cons_succ, List.erase_cons, ha',
          jsFindIndex_eraseIdx f l h0]
        simp

/-- `winConditionStep` only updates `winners`. -/
theorem winConditionStep_eq (acc : Game) (p : Player) :
    winConditionStep acc p =
      { acc with winners :=
          if ((acc.tokens.filter (fun t => t.playerIndex = p.playerIndex)).all (fun t => t.completed) ∧ ¬ acc.winners.contains p.playerIndex)
          then acc.winners ++ [p.playerIndex] else acc.winners } := by
  unfold winConditionStep
  by_cases h : (acc.tokens.filter (fun t => t.playerIndex = p.playerIndex)).all
      (fun t => t.completed) ∧ ¬ acc.winners.contains p.playerIndex
  · rw [if_pos h, if_pos h]
  · rw [if_neg h, if_neg h]

/-- The `forEach` fold of `checkWinCondition` only appends to `winners`:
it preserves every other field, keeps the previous winners as a prefix,
preserves duplicate-freedom and only appends seat indices of the folded
players. -/
theorem winFold_spec : ∀ (ps : List Player) (acc : Game),
    ∃ w, List.foldl winConditionStep acc ps = { acc with winners := w } ∧
      acc.winners <+: w ∧ (acc.winners.Nodup → w.Nodup) ∧
      (∀ x ∈ w, x ∈ acc.winners ∨ x ∈ ps.map (fun q => q.playerIndex))
  | [], acc => ⟨acc.winners, rfl, List.prefix_refl _, fun h => h, fun _ hx => Or.inl hx⟩
  | p :: ps, acc => by
    obtain ⟨w, hw, hpre, hnd, hmem⟩ := winFold_spec ps (winConditionStep acc p)
    rw [winConditionStep_eq acc p] at hw hpre hnd hmem
    dsimp only at hw hpre hnd hmem
    by_cases h : (acc.tokens.filter (fun t => t.playerIndex = p.playerIndex)).all
        (fun t => t.completed) ∧ ¬ acc.winners.contains p.playerIndex
    · rw [if_pos h] at hw hpre hnd hmem
      have hnotmem : p.playerIndex ∉ acc.winners := by
        simpa [List.contains] using h.2
      refine ⟨w, ?_, ?_, ?_, ?_⟩
      · rw [List.foldl_cons, winConditionStep_eq acc p, if_pos h]
        exact hw
      · exact (List.prefix_append acc.winners [p.playerIndex]).trans hpre
      · intro hnd0
        exact hnd (by simp [List.nodup_append, hnd0, hnotmem])
      · intro x hx
        rcases hmem x hx with hx' | hx'
        · rcases List.mem_append.mp hx' with hx'' | hx''
          · exact Or.inl hx''
          · right
            simp at hx''
            simp [hx'']
        · right
          simp [hx']
    · rw [if_neg h] at hw hpre hnd hmem
      refine ⟨w, ?_, hpre, hnd, ?_⟩
      · rw [List.foldl_cons, winConditionStep_eq acc p, if_neg h]
        exact hw
      · intro x hx
        rcases hmem x hx with hx' | hx'
        · exact Or.inl hx'
        · right
          simp [hx']

/-- Case analysis of `checkWinCondition`: it replaces `winners` with a
superlist `w` of seat indices and sets `gameOver` exactly when `w`
covers `players` in length. -/
theorem checkWinCondition_cases (g : Game) :
    ∃ w, g.winners <+: w ∧ (g.winners.Nodup → w.Nodup) ∧
      (∀ x ∈ w, x ∈ g.winners ∨ x ∈ seatIndices g) ∧
      ((w.length = g.players.length ∧
          checkWinCondition g = { g with winners := w, gameOver := true }) ∨
        (w.length ≠ g.players.length ∧
          checkWinCondition g = { g with winners := w })) := by
  obtain ⟨w, hw, hpre, hnd, hmem⟩ := winFold_spec g.players g
  refine ⟨w, hpre, hnd, hmem, ?_⟩
  unfold checkWinCondition
  rw [hw]
  dsimp only
  by_cases h : w.length = g.players.length
  · rw [if_pos h]
    exact Or.inl ⟨h, rfl⟩
  · rw [if_neg h]
    exact Or.inr ⟨h, rfl⟩

/-- `checkWinCondition` only updates `winners` and `gameOver`. -/
theorem checkWinCondition_shape (g : Game) :
    ∃ w gov, checkWinCondition g = { g with winners := w, gameOver := gov } := by
  obtain ⟨w, -, -, -, h | h⟩ := checkWinCondition_cases g
  · exact ⟨w, true, h.2⟩
  · exact ⟨w, g.gameOver, h.2⟩

/-- `checkWinCondition` does not touch the token list. -/
theorem checkWinCondition_tokens (g : Game) :
    (checkWinCondition g).tokens = g.tokens := by
  obtain ⟨w, gov, h⟩ := checkWinCondition_shape g
  rw [h]

/-- `checkWinCondition` does not touch the remaining rolls. -/
theorem checkWinCondition_currentRolls (g : Game) :
    (checkWinCondition g).currentRolls = g.currentRolls := by
  obtain ⟨w, gov, h⟩ := checkWinCondition_shape g
  rw [h]

/-- When `gameOver` was not yet set, `checkWinCondition` sets it exactly
when the new `winners` list covers `players` in length. -/
theorem checkWinCondition_transition (g : Game) (hgo : g.gameOver = false) :
    ((checkWinCondition g).gameOver = true ↔
      (checkWinCondition g).winners.length = g.players.length) := by
  obtain ⟨w, -, -, -, ⟨hlen, heq⟩ | ⟨hlen, heq⟩⟩ := checkWinCondition_cases g
  · rw [heq]
    exact ⟨fun _ => hlen, fun _ => rfl⟩
  · rw [heq]
    dsimp only
    rw [hgo]
    exact ⟨fun h => absurd h (by simp), fun h => absurd h hlen⟩

/-- Two duplicate-free lists that contain each other have equal length;
contrapositively, a subset relation plus a length bound forces coverage. -/
theorem subset_of_nodup_of_length_le (w s : List Nat) (hnd : w.Nodup)
    (hsub : w ⊆ s) (hlen : s.length ≤ w.length) : s ⊆ w :=
  ((hnd.subperm hsub).perm_of_length_le hlen).symm.subset

/-- `checkWinCondition` preserves the strengthened winners invariant. -/
theorem engineInvariant_checkWinCondition (g : Game) (h : engineInvariant g) :
    engineInvariant (checkWinCondition g) := by
  obtain ⟨h1, h2, h3, h4⟩ := h
  obtain ⟨w, hpre, hnd, hmem, hcase⟩ := checkWinCondition_cases g
  have hwnd : w.Nodup := hnd h1
  have hwsub : w ⊆ seatIndices g := by
    intro x hx
    rcases hmem x hx with hx' | hx'
    · exact h2 hx'
    · exact hx'
  have hslen : (seatIndices g).length = g.players.length := List.length_map _ _
  rcases hcase with ⟨hlen, heq⟩ | ⟨hlen, heq⟩
  · have hcov : seatIndices g ⊆ w := by
      apply subset_of_nodup_of_length_le w (seatIndices g) hwnd hwsub
      omega
    rw [heq]
    refine ⟨hwnd, hwsub, h3, ?_⟩
    constructor
    · intro _ p hp
      exact hcov (List.mem_map_of_mem _ hp)
    · intro _
      rfl
  · rw [heq]
    refine ⟨hwnd, hwsub, h3, ?_⟩
    dsimp only
    constructor
    · intro hgo p hp
      exact hpre.subset (h4.mp hgo p hp)
    · intro hcov
      exfalso
      have hcov' : seatIndices g ⊆ w := by
        intro x hx
        rcases List.mem_map.mp hx with ⟨p, hp, hpx⟩
        rw [← hpx]
        exact hcov p hp
      have l1 : w.length ≤ (seatIndices g).length := (hwnd.subperm hwsub).length_le
      have l2 : (seatIndices g).length ≤ w.length := (h3.subperm hcov').length_le
      omega

/-- The capture clause only rewrites the token list. -/
theorem moveTokenCapture_shape (g1 : Game) (token : Token) (np : Int) (ns : Nat) :
    ∃ toks, moveTokenCapture g1 token np ns = { g1 with tokens := toks } := by
  unfold moveTokenCapture
  split
  · split
    · exact ⟨_, rfl⟩
    · exact ⟨g1.tokens, rfl⟩
  · exact ⟨g1.tokens, rfl⟩

/-- The completion clause either does nothing or rewrites the token list
and runs `checkWinCondition`. -/
theorem moveTokenComplete_cases (g2 : Game) (tid : String) (ns : Nat) :
    moveTokenComplete g2 tid ns = g2 ∨
    (∃ toks, moveTokenComplete g2 tid ns = checkWinCondition { g2 with tokens := toks }) := by
  unfold moveTokenComplete
  split
  · exact Or.inr ⟨_, rfl⟩
  · exact Or.inl rfl

/-- `moveToken` either rewrites only the token list, or rewrites the
token list and then runs `checkWinCondition`. -/
theorem moveToken_cases (g : Game) (tid : String) :
    (∃ toks, moveToken g tid = { g with tokens := toks }) ∨
    (∃ toks, moveToken g tid = checkWinCondition { g with tokens := toks }) := by
  unfold moveToken
  cases hf : g.tokens.find? (fun t => t.id = tid) with
  | none => exact Or.inl ⟨g.tokens, rfl⟩
  | some token =>
    dsimp only
    split
    · exact Or.inl ⟨g.tokens, rfl⟩
    · split
      · exact Or.inl ⟨_, rfl⟩
      · unfold moveTokenComplete moveTokenCapture
        split
        · split
          · split
            · exact Or.inr ⟨_, rfl⟩
            · exact Or.inr ⟨_, rfl⟩
          · exact Or.inr ⟨_, rfl⟩
        · split
          · split
            · exact Or.inl ⟨_, rfl⟩
            · exact Or.inl ⟨_, rfl⟩
          · exact Or.inl ⟨_, rfl⟩

/-- `moveToken` does not touch the remaining rolls. -/
theorem moveToken_currentRolls (g : Game) (tid : String) :
    (moveToken g tid).currentRolls = g.currentRolls := by
  rcases moveToken_cases g tid with ⟨toks, h⟩ | ⟨toks, h⟩
  · rw [h]
  · rw [h, checkWinCondition_currentRolls]

/-- `moveToken` preserves the strengthened winners invariant. -/
theorem engineInvariant_moveToken (g : Game) (tid : String) (h : engineInvariant g) :
    engineInvariant (moveToken g tid) := by
  rcases moveToken_cases g tid with ⟨toks, heq⟩ | ⟨toks, heq⟩
  · rw [heq]
    exact h
  · rw [heq]
    exact engineInvariant_checkWinCondition _ h

/-- Under the invariant, a game that is not over cannot already have a
full-length winners list. -/
theorem winners_length_ne (g : Game) (hgo : g.gameOver = false)
    (hinv : engineInvariant g) : g.winners.length ≠ g.players.length := by
  intro hlen
  obtain ⟨h1, h2, h3, h4⟩ := hinv
  have hslen : (seatIndices g).length = g.players.length := List.length_map _ _
  have hcov : seatIndices g ⊆ g.winners :=
    subset_of_nodup_of_length_le _ _ h1 h2 (by omega)
  have hh : g.gameOver = true := h4.mpr (fun p hp => hcov (List.mem_map_of_mem _ hp))
  rw [hgo] at hh
  exact absurd hh (by simp)

/-- In a two-seat game that is not over, the `gameOver`/`winners.length`
equivalence holds trivially (both sides false). -/
theorem gameOver_iff_of_not_over (g : Game) (h2 : g.players.length = 2)
    (hgo : g.gameOver = false) (hinv : engineInvariant g) :
    (g.gameOver = true ↔ g.winners.length = 2) := by
  rw [hgo]
  constructor
  · intro hh
    exact absurd hh (by simp)
  · intro hlen
    exact ((winners_length_ne g hgo hinv) (by rw [hlen, h2])).elim

/-- In a two-seat game that is not over, `moveToken` sets `gameOver`
exactly when `winners` reaches size 2. -/
theorem moveToken_transition (g : Game) (tid : String) (h2 : g.players.length = 2)
    (hgo : g.gameOver = false) (hinv : engineInvariant g) :
    ((moveToken g tid).gameOver = true ↔ (moveToken g tid).winners.length = 2) := by
  rcases moveToken_cases g tid with ⟨toks, heq⟩ | ⟨toks, heq⟩
  · rw [heq]
    exact gameOver_iff_of_not_over g h2 hgo hinv
  · rw [heq]
    have ht := checkWinCondition_transition { g with tokens := toks } hgo
    have hp : ({ g with tokens := toks } : Game).players.length = 2 := h2
    rw [hp] at ht
    exact ht

/-- `playRoll` preserves the strengthened winners invariant. -/
theorem engineInvariant_playRoll (g : Game) (sid tid : String) (f : Nat)
    (h : engineInvariant g) : engineInvariant (playRoll g sid tid f).2 := by
  unfold playRoll
  cases hf : g.tokens.find? (fun t => t.id = tid) with
  | none => exact h
  | some token =>
    cases hp : g.players.find? (fun p => p.id = sid) with
    | none => exact h
    | some pl =>
      dsimp only
      split
      · exact h
      · split
        · exact h
        · dsimp only
          split
          · exact engineInvariant_moveToken { g with diceValue := f } tid h
          · exact engineInvariant_moveToken { g with diceValue := f } tid h

/-- `rollDice` preserves the strengthened winners invariant. -/
theorem engineInvariant_rollDice (g : Game) (pid : String) (rolls : List Nat)
    (h : engineInvariant g) : engineInvariant (rollDice g pid rolls).2 := by
  unfold rollDice
  cases hp : g.players.find? (fun p => p.playerId = pid) with
  | none => exact h
  | some pl =>
    dsimp only
    split
    · exact h
    · split
      · exact h
      · exact h

/-- `skipTurn` preserves the strengthened winners invariant. -/
theorem engineInvariant_skipTurn (g : Game) (sid : String)
    (h : engineInvariant g) : engineInvariant (skipTurn g sid).2 := by
  unfold skipTurn
  dsimp only
  split
  · exact h
  · split
    · exact h
    · exact h

/-- In a two-seat game that is not over, `playRoll` sets `gameOver`
exactly when `winners` reaches size 2. -/
theorem playRoll_transition (g : Game) (sid tid : String) (f : Nat)
    (h2 : g.players.length = 2) (hgo : g.gameOver = false)
    (hinv : engineInvariant g) :
    ((playRoll g sid tid f).2.gameOver = true ↔
      (playRoll g sid tid f).2.winners.length = 2) := by
  unfold playRoll
  cases hf : g.tokens.find? (fun t => t.id = tid) with
  | none => exact gameOver_iff_of_not_over g h2 hgo hinv
  | some token =>
    cases hp : g.players.find? (fun p => p.id = sid) with
    | none => exact gameOver_iff_of_not_over g h2 hgo hinv
    | some pl =>
      dsimp only
      split
      · exact gameOver_iff_of_not_over g h2 hgo hinv
      · split
        · exact gameOver_iff_of_not_over g h2 hgo hinv
        · dsimp only
          split
          · exact moveToken_transition { g with diceValue := f } tid h2 hgo hinv
          · exact moveToken_transition { g with diceValue := f } tid h2 hgo hinv

/-- Either `playRoll` fails, or the face index was found and the
resulting rolls are the prior rolls with that index removed, or cleared
entirely by the turn advance. -/
theorem playRoll_success_cases (g : Game) (sid tid : String) (f : Nat) :
    (∃ e, (playRoll g sid tid f).1 = some e) ∨
    (0 ≤ jsFindIndex (fun v => v == f) g.currentRolls ∧
      ((playRoll g sid tid f).2.currentRolls = [] ∨
        (playRoll g sid tid f).2.currentRolls =
          g.currentRolls.eraseIdx
            (jsFindIndex (fun v => v == f) g.currentRolls).toNat)) := by
  unfold playRoll
  cases hf : g.tokens.find? (fun t => t.id = tid) with
  | none => exact Or.inl ⟨_, rfl⟩
  | some token =>
    cases hp : g.players.find? (fun p => p.id = sid) with
    | none => exact Or.inl ⟨_, rfl⟩
    | some pl =>
      dsimp only
      split
      · exact Or.inl ⟨_, rfl⟩
      · rename_i hidx
        split
        · exact Or.inl ⟨_, rfl⟩
        · refine Or.inr ⟨by omega, ?_⟩
          dsimp only
          split
          · exact Or.inl rfl
          · right
            show ((moveToken { g with diceValue := f } tid).currentRolls.eraseIdx _) = _
            rw [moveToken_currentRolls]

/-- A `playRoll` call whose token and caller resolve, whose face is
present, and whose move validates, succeeds — no further check (in
particular no turn or ownership check) is performed.  The resulting
token list is the one `moveToken` produces. -/
theorem playRoll_success (g : Game) (sid tid : String) (f : Nat) (tok : Token)
    (pl : Player)
    (hfind : g.tokens.find? (fun t => t.id = tid) = some tok)
    (hpl : g.players.find? (fun p => p.id = sid) = some pl)
    (hidx : 0 ≤ jsFindIndex (fun v => v == f) g.currentRolls)
    (hvalid : isValidMove { g with diceValue := f } tok = true) :
    (playRoll g sid tid f).1 = none ∧
    (playRoll g sid tid f).2.tokens = (moveToken { g with diceValue := f } tid).tokens := by
  unfold playRoll
  rw [hfind, hpl]
  dsimp only
  rw [if_neg (by omega : ¬ jsFindIndex (fun v => v == f) g.currentRolls < 0)]
  rw [if_neg (by simp [hvalid])]
  constructor
  · rfl
  · dsimp only
    split
    · rfl
    · rfl

/-- Applying `moveToken` to a valid non-base move leaves, in the
resulting token list, a token with the moved token's id whose `steps`
advanced by the die face (captures can only reset *other*-colored
tokens, and completion does not change `steps`). -/
theorem moveToken_moves (g : Game) (tid : String) (tok : Token)
    (hfind : g.tokens.find? (fun t => t.id = tid) = some tok)
    (hvalid : isValidMove g tok = true)
    (hpos : ¬ tok.position = -1)
    (hnd : (g.tokens.map (fun t => t.id)).Nodup) :
    ∃ t2 ∈ (moveToken g tid).tokens, t2.id = tok.id ∧
      t2.steps = tok.steps + g.diceValue := by
  have hmem : tok ∈ g.tokens := List.mem_of_find?_eq_some hfind
  have hid : tok.id = tid := by simpa using List.find?_some hfind
  unfold moveToken
  rw [hfind]
  dsimp only
  rw [if_neg (by simp [hvalid]), if_neg hpos]
  set ns := tok.steps + g.diceValue with hns
  set np := moveTokenNewPosition tok ns with hnp
  set M1 := g.tokens.map
    (fun t => if t.id = tid then { t with position := np, steps := ns } else t) with hM1
  set t1 : Token := { tok with position := np, steps := ns } with ht1
  have hmem1 : t1 ∈ M1 := by
    rw [hM1]
    have hx := List.mem_map_of_mem
      (fun t => if t.id = tid then { t with position := np, steps := ns } else t) hmem
    simpa [hid, ht1] using hx
  have hids : M1.map (fun t => t.id) = g.tokens.map (fun t => t.id) := by
    rw [hM1, List.map_map]
    congr 1
    funext t
    by_cases h : t.id = tid <;> simp [Function.comp, h]
  have hnd1 : (M1.map (fun t => t.id)).Nodup := by
    rw [hids]
    exact hnd
  have ht1id : t1.id = tok.id := rfl
  have ht1steps : t1.steps = ns := rfl
  unfold moveTokenCapture
  split
  · rename_i h52
    cases hcap : M1.find? (fun t =>
        t.position = np ∧ t.color ≠ tok.color ∧ t.position ≠ -1 ∧
        ¬ SAFE_SQUARE_INDICES.contains np) with
    | none =>
      unfold moveTokenComplete
      rw [if_neg (by
        unfold TRACK_LENGTH at h52
        unfold TRACK_LENGTH HOME_COLUMN_LENGTH
        omega)]
      exact ⟨t1, hmem1, ht1id, ht1steps⟩
    | some tt =>
      have httmem : tt ∈ M1 := List.mem_of_find?_eq_some hcap
      have httpred := List.find?_some hcap
      have httc : tt.color ≠ tok.color := by
        simp only [decide_eq_true_eq] at httpred
        exact httpred.2.1
      have httid : ¬ t1.id = tt.id := by
        intro he
        have heq : t1 = tt := List.inj_on_of_nodup_map hnd1 hmem1 httmem he
        exact httc (by rw [← heq])
      have hmem2 : t1 ∈ M1.map
          (fun t => if t.id = tt.id then { t with position := -1, steps := 0 } else t) := by
        have hx := List.mem_map_of_mem
          (fun t => if t.id = tt.id then { t with position := -1, steps := 0 } else t) hmem1
        simpa [httid] using hx
      unfold moveTokenComplete
      rw [if_neg (by
        unfold TRACK_LENGTH at h52
        unfold TRACK_LENGTH HOME_COLUMN_LENGTH
        omega)]
      exact ⟨t1, hmem2, ht1id, ht1steps⟩
  · unfold moveTokenComplete
    split
    · rw [checkWinCondition_tokens]
      refine ⟨{ t1 with completed := true, position := 99 }, ?_, ht1id, ht1steps⟩
      have hx := List.mem_map_of_mem
        (fun t => if t.id = tid then { t with completed := true, position := 99 } else t) hmem1
      simpa [hid] using hx
    · exact ⟨t1, hmem1, ht1id, ht1steps⟩

/-- For a base token `isValidMove` is literally the test `diceValue === 6`. -/
theorem isValidMove_base (g : Game) (t : Token) (ht : t.position = -1) :
    isValidMove g t = (g.diceValue == 6) := by
  unfold isValidMove
  rw [if_pos ht]

/-- **C1 — counterexample.**  The claim says a `playRoll` by a seat other
than the current seat is rejected with `OutOfTurn` leaving the state
unchanged.  In `gameC1` it is seat 0's turn, yet seat 1's socket plays
`GREEN-0` with the pending 6: the call succeeds, the token leaves base
(`steps = 1`) and the face is consumed. -/
theorem C1_playRoll_out_of_turn_accepted :
    gameC1.currentPlayer = 0 ∧
    (gameC1.players.find? (fun p => p.id = "s1")).map (fun p => p.playerIndex) = some 1 ∧
    (playRoll gameC1 "s1" "GREEN-0" 6).1 = none ∧
    ((playRoll gameC1 "s1" "GREEN-0" 6).2.tokens.find? (fun t => t.id = "GREEN-0")).map
      (fun t => t.steps) = some 1 ∧
    (playRoll gameC1 "s1" "GREEN-0" 6).2.currentRolls = [] := by decide

/-- **C1 — amended.**  `playRoll` performs no turn check at all: whenever
the token exists, the caller's socket is bound to some seat, the face is
present in `currentRolls` and `isValidMove` passes, the call succeeds —
even when the caller's seat is not the current seat. -/
theorem C1_playRoll_has_no_turn_check : ∀ (g : Game) (sid tid : String) (f : Nat)
    (tok : Token) (pl : Player),
    g.tokens.find? (fun t => t.id = tid) = some tok →
    g.players.find? (fun p => p.id = sid) = some pl →
    pl.playerIndex ≠ g.currentPlayer →
    0 ≤ jsFindIndex (fun v => v == f) g.currentRolls →
    isValidMove { g with diceValue := f } tok = true →
    (playRoll g sid tid f).1 = none := by
  intro g sid tid f tok pl hfind hpl hturn hidx hvalid
  exact (playRoll_success g sid tid f tok pl hfind hpl hidx hvalid).1

/-- Witness for `C1_playRoll_has_no_turn_check` at the concrete `gameC1`. -/
theorem C1_playRoll_has_no_turn_check_witness :
    (playRoll gameC1 "s1" "GREEN-0" 6).1 = none :=
  C1_playRoll_has_no_turn_check gameC1 "s1" "GREEN-0" 6
    (initToken "GREEN-0" "GREEN" 1) humanPlayer1
    (by decide) (by decide) (by decide) (by decide) (by decide)

/-- **C2 — counterexample.**  The claim says no field of the game changes
on any failure path.  But `rollDice` by the non-acting seat throws
`OutOfTurn` *after* clearing `rolledValue`: in `gameC2` the displayed
roll `[3,5]` is wiped by the failed call. -/
theorem C2_rollDice_failure_clears_rolledValue :
    (rollDice gameC2 "P1" [2, 2]).1 = some GameError.OutOfTurn ∧
    gameC2.rolledValue = [3, 5] ∧
    (rollDice gameC2 "P1" [2, 2]).2.rolledValue = [] ∧
    (rollDice gameC2 "P1" [2, 2]).2 ≠ gameC2 := by decide

/-- **C2 — amended.**  Every typed failure leaves the game unchanged
*except*: `rollDice`'s `OutOfTurn` clears `rolledValue`, and `playRoll`'s
`IllegalMove` leaves `diceValue` set to the requested face (the face
lookup and the two not-found failures happen before any write). -/
theorem C2_failure_paths_precise_state : ∀ (g : Game) (pid sid sid2 sid3 pid3 tid : String)
    (rolls : List Nat) (f : Nat),
    ((rollDice g pid rolls).1 = some GameError.PlayerNotFound →
      (rollDice g pid rolls).2 = g) ∧
    ((rollDice g pid rolls).1 = some GameError.OutOfTurn →
      (rollDice g pid rolls).2 = { g with rolledValue := [] }) ∧
    (∀ e, (playRoll g sid tid f).1 = some e → e ≠ GameError.IllegalMove →
      (playRoll g sid tid f).2 = g) ∧
    ((playRoll g sid tid f).1 = some GameError.IllegalMove →
      (playRoll g sid tid f).2 = { g with diceValue := f }) ∧
    (∀ e2, (skipTurn g sid2).1 = some e2 → (skipTurn g sid2).2 = g) ∧
    ((joinGame g sid3 pid3).1 = some GameError.GameFull →
      (joinGame g sid3 pid3).2 = g) := by
  intro g pid sid sid2 sid3 pid3 tid rolls f
  refine ⟨?_, ?_, ?_, ?_, ?_, ?_⟩
  · unfold rollDice
    cases hp : g.players.find? (fun p => p.playerId = pid) with
    | none => intro _; rfl
    | some pl =>
      dsimp only
      split
      · intro h
        simp at h
      · split
        · intro h
          simp at h
        · intro h
          simp at h
  · unfold rollDice
    cases hp : g.players.find? (fun p => p.playerId = pid) with
    | none =>
      intro h
      simp at h
    | some pl =>
      dsimp only
      split
      · intro _
        rfl
      · split
        · intro h
          simp at h
        · intro h
          simp at h
  · unfold playRoll
    cases hf : g.tokens.find? (fun t => t.id = tid) with
    | none => intro _ _ _; rfl
    | some token =>
      cases hpl : g.players.find? (fun p => p.id = sid) with
      | none => intro _ _ _; rfl
      | some pl =>
        dsimp only
        split
        · intro _ _ _
          rfl
        · split
          · intro e h he
            simp at h
            exact absurd h.symm he
          · intro e h
            simp at h
  · unfold playRoll
    cases hf : g.tokens.find? (fun t => t.id = tid) with
    | none =>
      intro h
      simp at h
    | some token =>
      cases hpl : g.players.find? (fun p => p.id = sid) with
      | none =>
        intro h
        simp at h
      | some pl =>
        dsimp only
        split
        · intro h
          simp at h
        · split
          · intro _
            rfl
          · intro h
            simp at h
  · unfold skipTurn
    dsimp only
    split
    · intro _ _
      rfl
    · split
      · intro _ _
        rfl
      · intro e2 h
        simp at h
  · unfold joinGame
    cases hj : g.players.find? (fun p => p.playerId = pid3) with
    | some pl =>
      intro h
      simp at h
    | none =>
      dsimp only
      split
      · intro _
        rfl
      · intro h
        simp at h

/-- Witness for `C2_failure_paths_precise_state` at concrete failing
calls: an `OutOfTurn` roll, an `IllegalMove` play, a seat-0 `skipTurn`
and a join on a full game. -/
theorem C2_failure_paths_precise_state_witness :
    (rollDice gameC2 "P1" [2, 2]).2 = { gameC2 with rolledValue := [] } ∧
    (playRoll gameC2b "s0" "RED-0" 6).2 = { gameC2b with diceValue := 6 } ∧
    (skipTurn gameC2 "s0").2 = gameC2 ∧
    (joinGame gameC2 "s9" "P9").2 = gameC2 := by
  refine ⟨?_, ?_, ?_, ?_⟩
  · exact (C2_failure_paths_precise_state gameC2 "P1" "x" "x" "x" "x" "x" [2, 2] 0).2.1
      (by decide)
  · exact (C2_failure_paths_precise_state gameC2b "x" "s0" "x" "x" "x" "RED-0" [] 6).2.2.2.1
      (by decide)
  · exact (C2_failure_paths_precise_state gameC2 "x" "x" "s0" "x" "x" "x" [] 0).2.2.2.2.1
      GameError.PlayerIndexNotFound (by decide)
  · exact (C2_failure_paths_precise_state gameC2 "x" "x" "x" "s9" "P9" "x" [] 0).2.2.2.2.2
      (by decide)

/-- **C3 — code bug.**  The claim (and the spec) say a completed token
(`steps = 58`) is illegal to move with every face.  `isValidMove` never
checks `token.completed`, and a completed token at `steps = 58` skips the
overshoot block (guarded by `steps < 57`), so every face validates;
`playRoll` then moves it to `steps = 59`. -/
theorem C3_completed_token_still_movable :
    tokenC3.completed = true ∧
    tokenC3.steps = TRACK_LENGTH + HOME_COLUMN_LENGTH ∧
    ([1, 2, 3, 4, 5, 6].all
      (fun k => isValidMove { gameC3 with diceValue := k } tokenC3)) = true ∧
    (playRoll gameC3 "s0" "RED-0" 1).1 = none ∧
    ((playRoll gameC3 "s0" "RED-0" 1).2.tokens.find? (fun t => t.id = "RED-0")).map
      (fun t => t.steps) = some 59 := by decide

/-- **C4 — code bug.**  The claim (and the spec) say `skipTurn` by the
acting seat succeeds for both seats.  The source guards the `findIndex`
result with the JS truthiness test `if (!pIdx)`, which fires on index 0:
the seat stored at array position 0 can never skip (it gets the
'Player with index not found' rejection even on its own turn, and never
`OutOfTurn`), while seat 1 skips normally. -/
theorem C4_skipTurn_rejects_seat_zero :
    gameC4.currentPlayer = 0 ∧
    (gameC4.players.get? 0).map (fun p => p.id) = some "s0" ∧
    skipTurn gameC4 "s0" = (some GameError.PlayerIndexNotFound, gameC4) ∧
    skipTurn gameC4b "s0" = (some GameError.PlayerIndexNotFound, gameC4b) ∧
    skipTurn gameC4 "s1" = (some GameError.OutOfTurn, gameC4) ∧
    (skipTurn gameC4b "s1").1 = none ∧
    (skipTurn gameC4b "s1").2.currentPlayer = 0 ∧
    (skipTurn gameC4b "s1").2.currentRolls = [] ∧
    (skipTurn gameC4b "s1").2.originalRolls = [] := by decide

/-- **C5 — code bug.**  The claim (and the spec, matching `moveToken`'s
own completion test `steps >= 58`) says a move is illegal exactly when
`steps + face > 58`, so reaching exactly 58 is legal.  `isValidMove`
instead rejects `steps + face > 57` (so the finish value 58 is
unreachable from `steps ≤ 56`) and skips the overshoot block entirely at
`steps = 57` (so faces overshooting far past 58 validate).  The spec's
steps-50/face-4 scenario itself works. -/
theorem C5_overshoot_bound_is_57_with_hole_at_57 :
    isValidMove gameC5 tokenC5a = false ∧
    tokenC5a.steps + gameC5.diceValue = TRACK_LENGTH + HOME_COLUMN_LENGTH ∧
    isValidMove gameC5b tokenC5b = true ∧
    tokenC5b.steps + gameC5b.diceValue = 63 ∧
    isValidMove gameC5c tokenC5c = true ∧
    ((moveToken gameC5c "RED-0").tokens.find? (fun t => t.id = "RED-0")).map
      (fun t => t.steps) = some 54 := by decide

/-- **C6 — confirmed.**  A token in base is legal to move exactly with
face 6, in every game state; and a seat whose allowed-color tokens are
all in base that rolls `[3,5]` has its turn advanced immediately by
`rollDice`, while `rolledValue` keeps reporting `[3,5]`. -/
theorem C6_base_exit_only_with_six :
    (∀ (g : Game) (t : Token), t.position = -1 →
      (isValidMove g t = true ↔ g.diceValue = 6)) ∧
    (∀ (g : Game) (pid : String) (pl : Player),
      g.players.find? (fun p => p.playerId = pid) = some pl →
      pl.playerIndex = g.currentPlayer →
      g.players.get? pl.playerIndex = some pl →
      (∀ t ∈ g.tokens, pl.colors.contains (colorToLower t.color) = true →
        t.position = -1) →
      (rollDice g pid [3, 5]).1 = none ∧
      (rollDice g pid [3, 5]).2.currentPlayer = (g.currentPlayer + 1) % g.players.length ∧
      (rollDice g pid [3, 5]).2.rolledValue = [3, 5]) := by
  constructor
  · intro g t ht
    rw [isValidMove_base g t ht]
    simp
  · intro g pid pl hfind hturn hget hbase
    have hcheck : ∀ val : Nat, (val == 6) = false →
        checkForValidMoves
          { g with
            originalRolls := [3, 5], currentRolls := [3, 5],
            rolledValue := [3, 5], diceValue := val } pl.playerIndex = false := by
      intro val hv
      unfold checkForValidMoves
      dsimp only
      rw [hget]
      rw [List.any_eq_false]
      intro t ht
      by_cases hc : pl.colors.contains (colorToLower t.color) = true
      · rw [isValidMove_base _ t (hbase t ht hc)]
        dsimp only
        rw [hv, hc]
        simp
      · have hc' : pl.colors.contains (colorToLower t.color) = false := by
          simpa using hc
        rw [hc']
        simp
    unfold rollDice
    rw [hfind]
    dsimp only
    rw [if_neg (by simp [hturn])]
    have h3 := hcheck 3 (by decide)
    have h5 := hcheck 5 (by decide)
    rw [if_pos (by simp [h3, h5])]
    exact ⟨rfl, rfl, rfl⟩

/-- Witness for `C6_base_exit_only_with_six` at the concrete `gameC6`. -/
theorem C6_base_exit_only_with_six_witness :
    (isValidMove { gameC6 with diceValue := 3 } (initToken "RED-0" "RED" 0) = true ↔
      ({ gameC6 with diceValue := 3 } : Game).diceValue = 6) ∧
    (rollDice gameC6 "P0" [3, 5]).1 = none ∧
    (rollDice gameC6 "P0" [3, 5]).2.currentPlayer =
      (gameC6.currentPlayer + 1) % gameC6.players.length ∧
    (rollDice gameC6 "P0" [3, 5]).2.rolledValue = [3, 5] := by
  refine ⟨C6_base_exit_only_with_six.1 _ _ (by decide), ?_⟩
  exact C6_base_exit_only_with_six.2 gameC6 "P0" humanPlayer0
    (by decide) (by decide) (by decide) (by decide)

/-- **C7 — counterexample.**  The claim says the AI's applied pair is
maximal in the order capture > base exit > greatest steps.  In `gameC7`
the AI holds `[3,5]`; `(GREEN-1, 3)` captures `RED-0`, yet the AI picks
`(GREEN-0, 3)` — with no 6 rolled it simply takes the first enumerated
valid pair. -/
theorem C7_ai_ignores_captures :
    aiPossibleMoves gameC7 =
      [⟨tokenC7a, 3, 0⟩, ⟨tokenC7b, 3, 0⟩, ⟨tokenC7a, 5, 1⟩, ⟨tokenC7b, 5, 1⟩] ∧
    aiSelectMove gameC7 = some ⟨tokenC7a, 3, 0⟩ ∧
    specMoveCaptures gameC7 tokenC7b 3 = true ∧
    specMoveCaptures gameC7 tokenC7a 3 = false ∧
    aiChoiceMaximal gameC7 = false := by decide

/-- **C7 — amended.**  Whenever the AI has at least one legal pair, it
applies a legal pair chosen as follows: if a 6 was rolled and some legal
pair is a base exit with face 6 it applies the first such pair; otherwise
it applies the first legal pair in enumeration order.  No capture or
steps-based priority exists. -/
theorem C7_ai_first_valid_selection : ∀ (g : Game) (m0 : AIMove) (rest : List AIMove),
    aiPossibleMoves g = m0 :: rest →
    ∃ m, aiSelectMove g = some m ∧ m ∈ aiPossibleMoves g ∧
      ((g.originalRolls.contains 6 = true ∧
          ∃ mb ∈ aiPossibleMoves g, mb.r = 6 ∧ mb.t.position = -1) →
        (m.r = 6 ∧ m.t.position = -1)) ∧
      (¬ (g.originalRolls.contains 6 = true ∧
          ∃ mb ∈ aiPossibleMoves g, mb.r = 6 ∧ mb.t.position = -1) →
        m = m0) := by
  intro g m0 rest hpm
  unfold aiSelectMove
  rw [hpm]
  dsimp only
  by_cases h6 : g.originalRolls.contains 6 = true
  · rw [if_pos h6]
    cases hfb : (m0 :: rest).find? (fun m => m.r == 6 && m.t.position == -1) with
    | none =>
      refine ⟨m0, rfl, List.mem_cons_self _ _, ?_, fun _ => rfl⟩
      rintro ⟨-, mb, hmb, hr, hp⟩
      have hnone := List.find?_eq_none.mp hfb mb hmb
      simp [hr, hp] at hnone
    | some mb =>
      have hmem := List.mem_of_find?_eq_some hfb
      have hpred := List.find?_some hfb
      simp only [Bool.and_eq_true, beq_iff_eq] at hpred
      refine ⟨mb, rfl, hmem, fun _ => hpred, ?_⟩
      intro hn
      exact absurd ⟨h6, mb, hmem, hpred.1, hpred.2⟩ hn
  · rw [if_neg h6]
    refine ⟨m0, rfl, List.mem_cons_self _ _, ?_, fun _ => rfl⟩
    rintro ⟨hc, -⟩
    exact absurd hc h6

/-- Witness for `C7_ai_first_valid_selection` at the concrete `gameC7`. -/
theorem C7_ai_first_valid_selection_witness :
    ∃ m, aiSelectMove gameC7 = some m ∧ m ∈ aiPossibleMoves gameC7 ∧
      ((gameC7.originalRolls.contains 6 = true ∧
          ∃ mb ∈ aiPossibleMoves gameC7, mb.r = 6 ∧ mb.t.position = -1) →
        (m.r = 6 ∧ m.t.position = -1)) ∧
      (¬ (gameC7.originalRolls.contains 6 = true ∧
          ∃ mb ∈ aiPossibleMoves gameC7, mb.r = 6 ∧ mb.t.position = -1) →
        m = ⟨tokenC7a, 3, 0⟩) :=
  C7_ai_first_valid_selection gameC7 ⟨tokenC7a, 3, 0⟩
    [⟨tokenC7b, 3, 0⟩, ⟨tokenC7a, 5, 1⟩, ⟨tokenC7b, 5, 1⟩] (by decide)

/-- **C8 — counterexample.**  The claim says every engine operation
preserves the invariant (`winners` duplicate-free, `gameOver` iff
`winners` covers every seat).  `gameC8` is a finished solo game (seat 0
completed everything, `winners = [0]`, `gameOver` set) satisfying the
invariant; `joinGame` still accepts a second seat, after which `gameOver`
is set while seat 1 is not in `winners`. -/
theorem C8_join_after_finish_breaks_invariant :
    winnersInvariant gameC8 ∧
    (joinGame gameC8 "s1" "P1").1 = none ∧
    ¬ winnersInvariant (joinGame gameC8 "s1" "P1").2 := by decide

/-- **C8 — amended.**  The turn-engine operations `rollDice`, `playRoll`
and `skipTurn` (which never change `players`) do preserve the invariant,
provided `winners` holds only (distinct) seat indices; and in a two-seat
game that is not over, `playRoll` sets `gameOver` exactly when `winners`
reaches size 2.  The seat-changing operations (`joinGame` into a finished
solo game, the disconnect-expiry removal) are the ones that can break the
iff. -/
theorem C8_turn_ops_preserve_invariant : ∀ (g : Game) (pid sid sid2 tid : String)
    (rolls : List Nat) (f : Nat),
    engineInvariant g →
    (winnersInvariant (rollDice g pid rolls).2 ∧ engineInvariant (rollDice g pid rolls).2) ∧
    (winnersInvariant (playRoll g sid tid f).2 ∧ engineInvariant (playRoll g sid tid f).2) ∧
    (winnersInvariant (skipTurn g sid2).2 ∧ engineInvariant (skipTurn g sid2).2) ∧
    (g.players.length = 2 → g.gameOver = false →
      ((playRoll g sid tid f).2.gameOver = true ↔
        (playRoll g sid tid f).2.winners.length = 2)) := by
  intro g pid sid sid2 tid rolls f h
  have wi : ∀ g2 : Game, engineInvariant g2 → winnersInvariant g2 :=
    fun g2 hh => ⟨hh.1, hh.2.2.2⟩
  have h1 := engineInvariant_rollDice g pid rolls h
  have h2 := engineInvariant_playRoll g sid tid f h
  have h3 := engineInvariant_skipTurn g sid2 h
  exact ⟨⟨wi _ h1, h1⟩, ⟨wi _ h2, h2⟩, ⟨wi _ h3, h3⟩,
    fun ha hb => playRoll_transition g sid tid f ha hb h⟩

/-- Witness for `C8_turn_ops_preserve_invariant` at the concrete
`gameC8w` (a two-seat game in progress). -/
theorem C8_turn_ops_preserve_invariant_witness :
    engineInvariant (playRoll gameC8w "s0" "RED-0" 6).2 ∧
    ((playRoll gameC8w "s0" "RED-0" 6).2.gameOver = true ↔
      (playRoll gameC8w "s0" "RED-0" 6).2.winners.length = 2) := by
  have h := C8_turn_ops_preserve_invariant gameC8w "P0" "s0" "s0" "RED-0" [2, 2] 6
    (by decide)
  exact ⟨h.2.1.2, h.2.2.2 (by decide) (by decide)⟩

/-- **C9 — counterexample.**  The claim says after every successful
`playRoll` the new `currentRoll` is the old one minus one instance of the
face.  In `gameC9` seat 0 plays the 5 (entering the home stretch); the
follow-up validity check runs with `diceValue` still 5, finds no move and
advances the turn, clearing `currentRolls` entirely — the unused 6 is
lost, `[] ≠ [6]`. -/
theorem C9_auto_advance_clears_rolls :
    (playRoll gameC9 "s0" "RED-0" 5).1 = none ∧
    gameC9.currentRolls = [5, 6] ∧
    (playRoll gameC9 "s0" "RED-0" 5).2.currentRolls = [] ∧
    gameC9.currentRolls.erase 5 = [6] ∧
    (playRoll gameC9 "s0" "RED-0" 5).2.currentRolls ≠ gameC9.currentRolls.erase 5 := by
  decide

/-- **C9 — amended.**  Every successful `playRoll` either leaves
`currentRolls` equal to the prior list with exactly the first occurrence
of the played face removed (so a double `[v,v]` keeps one `v`), or — when
the turn auto-advances because no roll remains or the follow-up check
fails — clears it entirely. -/
theorem C9_face_removed_once_or_cleared : ∀ (g : Game) (sid tid : String) (f : Nat),
    (playRoll g sid tid f).1 = none →
    ((playRoll g sid tid f).2.currentRolls = g.currentRolls.erase f ∨
      (playRoll g sid tid f).2.currentRolls = []) := by
  intro g sid tid f hs
  rcases playRoll_success_cases g sid tid f with ⟨e, he⟩ | ⟨hidx, hr | hr⟩
  · rw [hs] at he
    simp at he
  · exact Or.inr hr
  · left
    rw [hr, jsFindIndex_eraseIdx f g.currentRolls hidx]

/-- Witness for `C9_face_removed_once_or_cleared` at the concrete
`gameC9w`, a double `[6,6]`: one 6 remains after the play. -/
theorem C9_face_removed_once_or_cleared_witness :
    (playRoll gameC9w "s0" "RED-0" 6).2.currentRolls = gameC9w.currentRolls.erase 6 ∨
    (playRoll gameC9w "s0" "RED-0" 6).2.currentRolls = [] :=
  C9_face_removed_once_or_cleared gameC9w "s0" "RED-0" 6 (by decide)

/-- **C10 — confirmed.**  `playRoll` never verifies token ownership: for
every game, a caller bound to the game can move a token whose color is
not among the caller's colors, whenever the face is present and
`isValidMove` passes; the opponent token's `steps` advance by the face. -/
theorem C10_playRoll_moves_opponent_token : ∀ (g : Game) (sid tid : String) (f : Nat)
    (tok : Token) (pl : Player),
    g.tokens.find? (fun t => t.id = tid) = some tok →
    g.players.find? (fun p => p.id = sid) = some pl →
    pl.colors.contains (colorToLower tok.color) = false →
    ¬ tok.position = -1 →
    (g.tokens.map (fun t => t.id)).Nodup →
    0 ≤ jsFindIndex (fun v => v == f) g.currentRolls →
    isValidMove { g with diceValue := f } tok = true →
    (playRoll g sid tid f).1 = none ∧
    ∃ t2 ∈ (playRoll g sid tid f).2.tokens, t2.id = tok.id ∧
      t2.steps = tok.steps + f := by
  intro g sid tid f tok pl hfind hpl hown hpos hnd hidx hvalid
  obtain ⟨h1, h2⟩ := playRoll_success g sid tid f tok pl hfind hpl hidx hvalid
  refine ⟨h1, ?_⟩
  rw [h2]
  exact moveToken_moves { g with diceValue := f } tid tok hfind hvalid hpos hnd

/-- Witness for `C10_playRoll_moves_opponent_token` at the concrete
`gameC10`: seat 0 moves seat 1's `GREEN-0`. -/
theorem C10_playRoll_moves_opponent_token_witness :
    (playRoll gameC10 "s0" "GREEN-0" 3).1 = none ∧
    ∃ t2 ∈ (playRoll gameC10 "s0" "GREEN-0" 3).2.tokens, t2.id = tokenC10.id ∧
      t2.steps = tokenC10.steps + 3 :=
  C10_playRoll_moves_opponent_token gameC10 "s0" "GREEN-0" 3 tokenC10 humanPlayer0
    (by decide) (by decide) (by decide) (by decide) (by decide) (by decide) (by decide)
